import Mathlib

/-!
# Verification of the deep-research backend core

A shallow embedding, over `List Char` texts and explicit state passing, of
the algorithmic core of the deep-research backend:

* the prompt budgeter `trimPrompt` (apps/backend/src/ai/providers.ts);
* the progress percentage computation and the session event stream of the
  `POST /research` handler (apps/backend/src/api.ts);
* the SSE subscriber registry (`GET /progress/:sessionId`,
  `sendProgressUpdate`);
* the global search-call concurrency pool of the recursive scheduler;
* the `SessionManager` store (apps/backend/src/session-manager.ts);
* the request validation of `POST /research` (`researchSchema`).

The recursive research engine (`deep-research.ts`) and the text splitter
(`text-splitter.ts`) are not part of the source tree available here; the
definitions that stand in for them are modelled from the specification and
say so in their doc comments.
-/

namespace DeepResearch

/-! ## Prompt budgeter (`trimPrompt`)

Source: apps/backend/src/ai/providers.ts, lines 339-376.  A JS string is
embedded as a `List Char`; the external `js-tiktoken` encoder is an opaque
parameter `encode : Text → Nat` giving the token count of a text. -/

/-- Text is modelled as a list of characters (a JS string). -/
abbrev Text := List Char

/-- `MinChunkSize` from providers.ts line 339: the fixed 140-character
minimum floor of the budgeter. -/
def MinChunkSize : Nat := 140

/-- Largest position `n` with `0 < n`, `n ≤ c` at which the separator `sep`
occurs in `l`.  The greedy merge of the splitter keeps whole separated
pieces while the running chunk stays within the character budget `c`, so
the first chunk it produces ends at the last separator occurrence not past
`c`. -/
def bestBoundary (sep : Text) (c : Nat) (l : Text) : Option Nat :=
  (List.range l.length).foldl
    (fun acc n =>
      if 0 < n ∧ n ≤ c ∧ sep.isPrefixOf (l.drop n) then some n else acc)
    none

/-- Modelled from the spec: `text-splitter.ts`
(`RecursiveCharacterTextSplitter`) is not in the source tree.  Per §4.1 the
splitter cuts the text on structural boundaries — paragraph, then sentence,
then word — and the budgeter keeps the first resulting chunk; when no
boundary produces a chunk within the budget the text comes back unchanged
(the case the budgeter's hard-cut guard handles). -/
def splitTextFirst (c : Nat) (l : Text) : Text :=
  match bestBoundary ['\n', '\n'] c l with
  | some n => l.take n
  | none =>
    match bestBoundary ['.'] c l with
    | some n => l.take n
    | none =>
      match bestBoundary [' '] c l with
      | some n => l.take n
      | none => l

/-- `chunkSize` from providers.ts line 358: the reduced character budget,
the prompt length minus three characters per overflowing token.  Computed
in `Int` because the JS expression can go negative. -/
def chunkBudget (encode : Text → Nat) (budget : Nat) (l : Text) : Int :=
  (l.length : Int) - ((encode l : Int) - (budget : Int)) * 3

/-- Fuelled form of `trimPrompt` (providers.ts lines 343-376).  One unit of
fuel per recursive call; `trimPrompt` below supplies `l.length + 1` fuel,
proved sufficient by `trimPromptFuel_congr`.  The branches mirror the
source line by line: empty prompt, within budget, character budget below
the 140 floor, splitter returned unchanged input (hard cut), and the
recursive trim of the first chunk. -/
def trimPromptFuel (encode : Text → Nat) (budget : Nat) : Nat → Text → Text
  | 0, l => l
  | fuel + 1, l =>
    if l = [] then []
    else if encode l ≤ budget then l
    else if chunkBudget encode budget l < (MinChunkSize : Int) then
      l.take MinChunkSize
    else if (splitTextFirst (chunkBudget encode budget l).toNat l).length = l.length then
      trimPromptFuel encode budget fuel (l.take (chunkBudget encode budget l).toNat)
    else
      trimPromptFuel encode budget fuel (splitTextFirst (chunkBudget encode budget l).toNat l)

/-- `trimPrompt` from providers.ts: trim a prompt until its encoded length
fits the context-size budget. -/
def trimPrompt (encode : Text → Nat) (budget : Nat) (l : Text) : Text :=
  trimPromptFuel encode budget (l.length + 1) l

/-- The first chunk the splitter returns is an initial segment of the
input (or the input unchanged). -/
theorem splitTextFirst_eq_take_or_self (c : Nat) (l : Text) :
    (∃ n, splitTextFirst c l = l.take n) ∨ splitTextFirst c l = l := by
  unfold splitTextFirst
  rcases h1 : bestBoundary ['\n', '\n'] c l with _ | n
  · rcases h2 : bestBoundary ['.'] c l with _ | n
    · rcases h3 : bestBoundary [' '] c l with _ | n
      · exact Or.inr rfl
      · exact Or.inl ⟨n, rfl⟩
    · exact Or.inl ⟨n, rfl⟩
  · exact Or.inl ⟨n, rfl⟩

/-- The splitter never lengthens its input. -/
theorem splitTextFirst_length_le (c : Nat) (l : Text) :
    (splitTextFirst c l).length ≤ l.length := by
  rcases splitTextFirst_eq_take_or_self c l with ⟨n, h⟩ | h
  · rw [h]; simp [List.length_take]
  · rw [h]

/-- In the hard-cut branch the recursion argument is strictly shorter than
the current text: one token of overflow already costs three characters of
the budget. -/
theorem take_chunk_length_lt (encode : Text → Nat) (budget : Nat) (l : Text)
    (henc : ¬ encode l ≤ budget)
    (hfloor : ¬ chunkBudget encode budget l < (MinChunkSize : Int)) :
    (l.take (chunkBudget encode budget l).toNat).length < l.length := by
  have hdef : chunkBudget encode budget l
      = (l.length : Int) - ((encode l : Int) - (budget : Int)) * 3 := rfl
  have hEB : (budget : Int) < (encode l : Int) := by exact_mod_cast Nat.lt_of_not_le henc
  have hmin : (MinChunkSize : Int) = 140 := rfl
  simp only [List.length_take]
  omega

/-- In the splitter branch the recursion argument is strictly shorter than
the current text (the equal-length case was diverted to the hard cut). -/
theorem trimmed_length_lt (c : Nat) (l : Text)
    (hne : (splitTextFirst c l).length ≠ l.length) :
    (splitTextFirst c l).length < l.length :=
  lt_of_le_of_ne (splitTextFirst_length_le c l) hne

/-- Any two fuel amounts strictly above the text length run `trimPromptFuel`
to the same result: every recursive call strictly decreases the text
length, so `length + 1` fuel is always enough. -/
theorem trimPromptFuel_congr (encode : Text → Nat) (budget : Nat) :
    ∀ f₁ f₂ l, l.length < f₁ → l.length < f₂ →
      trimPromptFuel encode budget f₁ l = trimPromptFuel encode budget f₂ l := by
  intro f₁
  induction f₁ with
  | zero => intro f₂ l h1 h2; omega
  | succ f ih =>
    intro f₂ l h1 h2
    obtain ⟨f₂', rfl⟩ : ∃ k, f₂ = k + 1 := ⟨f₂ - 1, by omega⟩
    by_cases hnil : l = []
    · simp [trimPromptFuel, hnil]
    · by_cases henc : encode l ≤ budget
      · simp [trimPromptFuel, hnil, henc]
      · by_cases hfloor : chunkBudget encode budget l < (MinChunkSize : Int)
        · simp [trimPromptFuel, hnil, henc, hfloor]
        · by_cases hsame :
            (splitTextFirst (chunkBudget encode budget l).toNat l).length = l.length
          · have hlt := take_chunk_length_lt encode budget l henc hfloor
            simp only [trimPromptFuel, if_neg hnil, if_neg henc, if_neg hfloor,
              if_pos hsame]
            exact ih f₂' _ (by omega) (by omega)
          · have hlt := trimmed_length_lt (chunkBudget encode budget l).toNat l hsame
            simp only [trimPromptFuel, if_neg hnil, if_neg henc, if_neg hfloor,
              if_neg hsame]
            exact ih f₂' _ (by omega) (by omega)

/-- C3: For every input string and every budget, trimPrompt terminates: if a
recursive trimming step does not shrink the text (the splitter returns
output of the same length as its input), a hard character cut is forced so
that every recursive call strictly decreases the text length until it is
within budget or the 140-character floor is hit.  Formally: any fuel amount
strictly above the text length — one unit per recursive call — already
computes the fixed result `trimPrompt`, because each recursive call strictly
decreases the text length. -/
theorem trimPrompt_terminates (encode : Text → Nat) (budget fuel : Nat) (l : Text)
    (h : l.length < fuel) :
    trimPromptFuel encode budget fuel l = trimPrompt encode budget l :=
  trimPromptFuel_congr encode budget fuel (l.length + 1) l h (by omega)

/-- Witness for `trimPrompt_terminates` at a concrete input. -/
theorem trimPrompt_terminates_witness :
    (['a', 'b', ' ', 'c'] : Text).length < 50 ∧
      trimPromptFuel (fun l => l.length) 1 50 ['a', 'b', ' ', 'c']
        = trimPrompt (fun l => l.length) 1 ['a', 'b', ' ', 'c'] :=
  ⟨by decide, trimPrompt_terminates (fun l => l.length) 1 50 ['a', 'b', ' ', 'c'] (by decide)⟩

/-- The result of trimming is within budget, or an initial segment of the
input of at most 140 characters (the floor cut of the last recursively
trimmed text).  This is the amended form of C1. -/
theorem trimPromptFuel_budget_or_floor (encode : Text → Nat) (budget : Nat) :
    ∀ fuel l, l.length < fuel →
      encode (trimPromptFuel encode budget fuel l) ≤ budget ∨
        ((trimPromptFuel encode budget fuel l).length ≤ MinChunkSize ∧
          ∃ n, trimPromptFuel encode budget fuel l = l.take n) := by
  intro fuel
  induction fuel with
  | zero => intro l h; omega
  | succ f ih =>
    intro l h
    by_cases hnil : l = []
    · subst hnil
      exact Or.inr ⟨by simp [trimPromptFuel], 0, by simp [trimPromptFuel]⟩
    · by_cases henc : encode l ≤ budget
      · simp only [trimPromptFuel, if_neg hnil, if_pos henc]
        exact Or.inl henc
      · by_cases hfloor : chunkBudget encode budget l < (MinChunkSize : Int)
        · simp only [trimPromptFuel, if_neg hnil, if_neg henc, if_pos hfloor]
          exact Or.inr ⟨by simp [List.length_take, MinChunkSize], MinChunkSize, rfl⟩
        · by_cases hsame :
            (splitTextFirst (chunkBudget encode budget l).toNat l).length = l.length
          · have hlt := take_chunk_length_lt encode budget l henc hfloor
            simp only [trimPromptFuel, if_neg hnil, if_neg henc, if_neg hfloor,
              if_pos hsame]
            rcases ih (l.take (chunkBudget encode budget l).toNat) (by omega) with
              hb | ⟨hlen, n, heq⟩
            · exact Or.inl hb
            · refine Or.inr ⟨hlen, min n (chunkBudget encode budget l).toNat, ?_⟩
              rw [heq, List.take_take]
          · have hlt := trimmed_length_lt (chunkBudget encode budget l).toNat l hsame
            simp only [trimPromptFuel, if_neg hnil, if_neg henc, if_neg hfloor,
              if_neg hsame]
            rcases ih (splitTextFirst (chunkBudget encode budget l).toNat l) (by omega) with
              hb | ⟨hlen, n, heq⟩
            · exact Or.inl hb
            · rcases splitTextFirst_eq_take_or_self
                (chunkBudget encode budget l).toNat l with ⟨m, hm⟩ | hm
              · refine Or.inr ⟨hlen, min n m, ?_⟩
                rw [heq, hm, List.take_take]
              · exact absurd (congrArg List.length hm) hsame

/-- C1 (amended): for every encoder, budget and text, `trimPrompt` returns
output whose encoded length is at most the budget, or — when the character
budget falls below the fixed 140-character floor — an initial segment of
the input of at most 140 characters: the floor cut applies to the last
recursively trimmed text, so the result need not be exactly the
140-character prefix of the original input. -/
theorem trimPrompt_budget_or_floor (encode : Text → Nat) (budget : Nat) (l : Text) :
    encode (trimPrompt encode budget l) ≤ budget ∨
      ((trimPrompt encode budget l).length ≤ MinChunkSize ∧
        ∃ n, trimPrompt encode budget l = l.take n) :=
  trimPromptFuel_budget_or_floor encode budget (l.length + 1) l (by omega)

/-- An encoder witnessing that the floor cut need not be the 140-character
prefix of the original input: token counts are realistic (never above the
character count), 5 tokens for the 162-character input and 50 for its
100-character first paragraph. -/
def encodeCE : Text → Nat := fun l =>
  if l.length = 162 then 5 else if l.length = 100 then 50 else l.length

/-- A 100-character paragraph followed by a paragraph boundary and a
60-character paragraph. -/
def ceP1 : Text := List.replicate 100 'a'

/-- The 162-character input of the C1 counterexample. -/
def ceS : Text := ceP1 ++ '\n' :: '\n' :: List.replicate 60 'b'

set_option maxRecDepth 4000 in
/-- C1 refuted as stated: with budget 1 the trimmed result of `ceS` is its
100-character first paragraph — the splitter first shrinks the text to the
paragraph, and the floor cut then returns that whole paragraph — which
neither fits the budget nor equals the 140-character prefix of the
input. -/
theorem trimPrompt_floor_refuted :
    ¬ (encodeCE (trimPrompt encodeCE 1 ceS) ≤ 1 ∨
        trimPrompt encodeCE 1 ceS = ceS.take MinChunkSize) := by
  decide

/-- Every value `trimPrompt` returns is empty, within budget, or at most
140 characters long: the three base cases of the recursion. -/
theorem trimPromptFuel_result_cases (encode : Text → Nat) (budget : Nat) :
    ∀ fuel l, l.length < fuel →
      trimPromptFuel encode budget fuel l = [] ∨
        encode (trimPromptFuel encode budget fuel l) ≤ budget ∨
        (trimPromptFuel encode budget fuel l).length ≤ MinChunkSize := by
  intro fuel
  induction fuel with
  | zero => intro l h; omega
  | succ f ih =>
    intro l h
    by_cases hnil : l = []
    · exact Or.inl (by simp [trimPromptFuel, hnil])
    · by_cases henc : encode l ≤ budget
      · simp only [trimPromptFuel, if_neg hnil, if_pos henc]
        exact Or.inr (Or.inl henc)
      · by_cases hfloor : chunkBudget encode budget l < (MinChunkSize : Int)
        · simp only [trimPromptFuel, if_neg hnil, if_neg henc, if_pos hfloor]
          exact Or.inr (Or.inr (by simp [List.length_take]))
        · by_cases hsame :
            (splitTextFirst (chunkBudget encode budget l).toNat l).length = l.length
          · have hlt := take_chunk_length_lt encode budget l henc hfloor
            simp only [trimPromptFuel, if_neg hnil, if_neg henc, if_neg hfloor,
              if_pos hsame]
            exact ih (l.take (chunkBudget encode budget l).toNat) (by omega)
          · have hlt := trimmed_length_lt (chunkBudget encode budget l).toNat l hsame
            simp only [trimPromptFuel, if_neg hnil, if_neg henc, if_neg hfloor,
              if_neg hsame]
            exact ih (splitTextFirst (chunkBudget encode budget l).toNat l) (by omega)

/-- Trimming a value that already fits one of the base cases returns it
unchanged. -/
theorem trimPrompt_fixed (encode : Text → Nat) (budget : Nat) (r : Text)
    (h : r = [] ∨ encode r ≤ budget ∨ r.length ≤ MinChunkSize) :
    trimPrompt encode budget r = r := by
  by_cases hnil : r = []
  · simp [trimPrompt, trimPromptFuel, hnil]
  · by_cases henc : encode r ≤ budget
    · simp [trimPrompt, trimPromptFuel, hnil, henc]
    · have hlen : r.length ≤ MinChunkSize := by tauto
      have hfloor : chunkBudget encode budget r < (MinChunkSize : Int) := by
        have hEB : (budget : Int) < (encode r : Int) := by
          exact_mod_cast Nat.lt_of_not_le henc
        have hdef : chunkBudget encode budget r
            = (r.length : Int) - ((encode r : Int) - (budget : Int)) * 3 := rfl
        have hmc : (MinChunkSize : Int) = 140 := rfl
        have hrl : r.length ≤ 140 := hlen
        omega
      simp only [trimPrompt, trimPromptFuel, if_neg hnil, if_neg henc, if_pos hfloor]
      exact List.take_of_length_le hlen

/-- C2: For every string text and every token budget, trim is idempotent:
applying it twice with the same budget equals applying it once. -/
theorem trimPrompt_idem (encode : Text → Nat) (budget : Nat) (l : Text) :
    trimPrompt encode budget (trimPrompt encode budget l)
      = trimPrompt encode budget l :=
  trimPrompt_fixed encode budget (trimPrompt encode budget l)
    (trimPromptFuel_result_cases encode budget (l.length + 1) l (by omega))

/-! ## Session progress events (`POST /research` handler, api.ts)

The handler wraps each engine progress signal into a `ResearchProgress`
record whose `progress` field is
`Math.round((completedQueries / Math.max(totalQueries, 1)) * 100)`
(api.ts line 414); on success it emits a final record with `progress: 100`
(line 454), on failure a final record with `progress: 0` (line 474). -/

/-- Session status, `'pending' | 'running' | 'completed' | 'error'`. -/
inductive SessionStatus where
  | pending
  | running
  | completed
  | error
deriving DecidableEq, Repr

/-- The `ResearchProgress` record the handler builds (field `progress` is
the percentage). -/
structure ResearchProgressM where
  sessionId : Nat
  currentDepth : Nat
  totalDepth : Nat
  currentBreadth : Nat
  totalBreadth : Nat
  currentQuery : Option Text
  totalQueries : Nat
  completedQueries : Nat
  status : SessionStatus
  progress : Nat
  message : Option Text
deriving Repr, DecidableEq

/-- `Math.round((completed / Math.max(total, 1)) * 100)` over the naturals:
`Math.round` of a non-negative quotient is `⌊x + 1/2⌋`, here
`(200c + m) / (2m)` with `m = max total 1`. -/
def progressPct (completed total : Nat) : Nat :=
  (200 * completed + max total 1) / (2 * max total 1)

/-- The running-progress record of api.ts lines 404-415. -/
def mkRunningProgress (sid currentDepth totalDepth currentBreadth totalBreadth : Nat)
    (currentQuery : Option Text) (totalQueries completedQueries : Nat) :
    ResearchProgressM :=
  { sessionId := sid
    currentDepth := currentDepth
    totalDepth := totalDepth
    currentBreadth := currentBreadth
    totalBreadth := totalBreadth
    currentQuery := currentQuery
    totalQueries := totalQueries
    completedQueries := completedQueries
    status := .running
    progress := progressPct completedQueries totalQueries
    message := none }

/-- The terminal record of api.ts lines 445-455: `progress` is the literal
100 and the status is `completed`. -/
def mkFinalProgress (sid depth breadth learnCount : Nat) : ResearchProgressM :=
  { sessionId := sid
    currentDepth := 0
    totalDepth := depth
    currentBreadth := 0
    totalBreadth := breadth
    currentQuery := none
    totalQueries := learnCount
    completedQueries := learnCount
    status := .completed
    progress := 100
    message := none }

/-- The terminal record of api.ts lines 465-476: `progress` is the literal
0 and the status is `error`. -/
def mkErrorProgress (sid depth breadth : Nat) (msg : Text) : ResearchProgressM :=
  { sessionId := sid
    currentDepth := 0
    totalDepth := depth
    currentBreadth := 0
    totalBreadth := breadth
    currentQuery := none
    totalQueries := 0
    completedQueries := 0
    status := .error
    progress := 0
    message := some msg }

/-- `ceil(breadth / 2)` clamped to at least 1: the child breadth of one
recursion step (spec §4.4 step 6). -/
def childBreadth (b : Nat) : Nat := max ((b + 1) / 2) 1

/-- Modelled from the spec: `deep-research.ts` is not in the source tree.
Total number of queries the full planned breadth/depth tree executes, the
spec's consistent whole-tree accounting rule for `totalQueries` (§4.5 and
Design Notes): each of the `b` queries of a node contributes itself plus a
child branch at `childBreadth b` and depth one less. -/
def plannedQueries : Nat → Nat → Nat
  | 0, _ => 0
  | d + 1, b => b * (plannedQueries d (childBreadth b) + 1)

/-- One level's query loop: for each of the `q` remaining queries, settle it
(incrementing the shared completed-queries counter and emitting its value),
then run the child branch.  `child` is the recursion one level deeper. -/
def queryLoop (child : Nat → Nat × List Nat) : Nat → Nat → Nat × List Nat
  | 0, c => (c, [])
  | q + 1, c =>
    let p := child (c + 1)
    let r := queryLoop child q p.1
    (r.1, ((c + 1) :: p.2) ++ r.2)

/-- Modelled from the spec: `deep-research.ts` is not in the source tree.
The sequence of completed-queries counter values a branch at breadth `b`
and depth `d` emits, starting from counter `c`, under the spec's rule that
a progress event fires once per settled query with a single shared
accumulator (§4.4 step 5, §5). -/
def branchEmits : Nat → Nat → Nat → Nat × List Nat
  | 0, _, c => (c, [])
  | d + 1, b, c => queryLoop (fun c' => branchEmits d (childBreadth b) c') b c

/-- The full event stream of one session as the handler publishes it: one
running record per settled query (percentage from `progressPct` over the
whole-tree total), then the terminal record — `progress: 100` when the
report succeeds, the error record with `progress: 0` when it fails. -/
def sessionEvents (sid b d : Nat) (reportOk : Bool) : List ResearchProgressM :=
  ((branchEmits d b 0).2.map
      (fun c => mkRunningProgress sid d d b b none (plannedQueries d b) c))
    ++ [if reportOk then mkFinalProgress sid d b (plannedQueries d b)
        else mkErrorProgress sid d b ['f', 'a', 'i', 'l']]

/-- The percentages carried by a session's successive events. -/
def sessionPercentages (sid b d : Nat) (reportOk : Bool) : List Nat :=
  (sessionEvents sid b d reportOk).map (·.progress)

/-- The handler's percentage is monotone in the completed-queries count. -/
theorem progressPct_mono (t c₁ c₂ : Nat) (h : c₁ ≤ c₂) :
    progressPct c₁ t ≤ progressPct c₂ t :=
  Nat.div_le_div_right (by omega)

/-- The handler's percentage never exceeds 100 while the completed count
stays within the total. -/
theorem progressPct_le_100 (t c : Nat) (h : c ≤ max t 1) :
    progressPct c t ≤ 100 := by
  have hm : 1 ≤ max t 1 := le_max_right t 1
  have h201 : (201 * max t 1) / (2 * max t 1) = 100 := by
    have h1 : 201 * max t 1 = max t 1 + 2 * max t 1 * 100 := by ring
    rw [h1, Nat.add_mul_div_left _ _ (by omega : 0 < 2 * max t 1),
      Nat.div_eq_of_lt (by omega)]
  calc progressPct c t ≤ (201 * max t 1) / (2 * max t 1) :=
        Nat.div_le_div_right (by omega)
    _ = 100 := h201

/-- When every planned query has settled the percentage is exactly 100. -/
theorem progressPct_total (t : Nat) (h : 1 ≤ t) : progressPct t t = 100 := by
  have hm : max t 1 = t := by omega
  have h1 : 200 * t + t = t + 2 * t * 100 := by ring
  unfold progressPct
  rw [hm, h1, Nat.add_mul_div_left _ _ (by omega : 0 < 2 * t),
    Nat.div_eq_of_lt (by omega)]

/-- Unfolding of `queryLoop` when the child branch behaves like a counter
run: the loop emits the consecutive counter values. -/
theorem queryLoop_spec (child : Nat → Nat × List Nat) (k : Nat)
    (h : ∀ c, child c = (c + k, List.range' (c + 1) k)) :
    ∀ q c, queryLoop child q c
      = (c + q * (k + 1), List.range' (c + 1) (q * (k + 1))) := by
  intro q
  induction q with
  | zero => intro c; simp [queryLoop]
  | succ q ih =>
    intro c
    have hrange : (c + 1) :: (List.range' (c + 1 + 1) k
          ++ List.range' (c + 1 + k + 1) (q * (k + 1)))
        = List.range' (c + 1) ((q + 1) * (k + 1)) := by
      rw [show c + 1 + k + 1 = c + 1 + 1 + k by omega, List.range'_append_1,
        show (q + 1) * (k + 1) = (k + q * (k + 1)) + 1 by ring, List.range'_succ]
      simp [Nat.add_comm]
    simp only [queryLoop, h, ih]
    refine Prod.ext ?_ ?_
    · simp; ring
    · simpa using hrange

/-- `branchEmits` emits the consecutive counter values `c+1, …, c+n` where
`n` is the whole planned tree's query count. -/
theorem branchEmits_spec :
    ∀ d b c, branchEmits d b c
      = (c + plannedQueries d b, List.range' (c + 1) (plannedQueries d b)) := by
  intro d
  induction d with
  | zero => intro b c; simp [branchEmits, plannedQueries]
  | succ d ih =>
    intro b c
    have h := queryLoop_spec (fun c' => branchEmits d (childBreadth b) c')
      (plannedQueries d (childBreadth b)) (fun c' => ih (childBreadth b) c') b c
    simpa [branchEmits, plannedQueries] using h

/-- Percentages of a consecutive counter run form a non-decreasing chain. -/
theorem chain_map_pct (t : Nat) :
    ∀ n a, List.Chain' (· ≤ ·)
      ((List.range' a n).map (fun c => progressPct c t)) := by
  intro n
  induction n with
  | zero => intro a; simp
  | succ n ih =>
    intro a
    rw [List.range'_succ, List.map_cons, List.chain'_cons']
    refine ⟨?_, ih (a + 1)⟩
    intro y hy
    rcases n with _ | n
    · simp at hy
    · rw [List.range'_succ, List.map_cons, List.head?_cons,
        Option.mem_def, Option.some.injEq] at hy
      rw [← hy]
      exact progressPct_mono t a (a + 1) (by omega)

/-- Closed form of a session's percentage stream: the handler formula over
the consecutive counter values, then the terminal literal. -/
theorem sessionPercentages_closed (sid b d : Nat) (ok : Bool) :
    sessionPercentages sid b d ok
      = (List.range' 1 (plannedQueries d b)).map
          (fun c => progressPct c (plannedQueries d b))
        ++ [if ok then 100 else 0] := by
  unfold sessionPercentages sessionEvents
  rw [branchEmits_spec d b 0]
  cases ok <;>
    simp [mkRunningProgress, mkFinalProgress, mkErrorProgress, Function.comp]

/-- C4 (amended): for every session whose research and report-writing
succeed, the percentages of its successive progress events are
non-decreasing, and the terminal event is the Completed record, whose
percentage is exactly 100.  (A failing session instead ends with the Error
record carrying percentage 0, which may drop below earlier events.) -/
theorem sessionEvents_monotone_completed (sid b d : Nat) :
    List.Chain' (· ≤ ·) (sessionPercentages sid b d true) ∧
      (sessionEvents sid b d true).getLast?
        = some (mkFinalProgress sid d b (plannedQueries d b)) ∧
      (mkFinalProgress sid d b (plannedQueries d b)).progress = 100 := by
  refine ⟨?_, ?_, rfl⟩
  · rw [sessionPercentages_closed, if_pos rfl]
    rw [List.chain'_append]
    refine ⟨chain_map_pct (plannedQueries d b) (plannedQueries d b) 1, by simp, ?_⟩
    intro x hx y hy
    simp only [List.head?_cons, Option.mem_def, Option.some.injEq] at hy
    have hx' := List.mem_of_getLast?_eq_some hx
    rcases List.mem_map.mp hx' with ⟨c, hc, rfl⟩
    rcases List.mem_range'_1.mp hc with ⟨hc1, hc2⟩
    have hle : progressPct c (plannedQueries d b) ≤ 100 :=
      progressPct_le_100 (plannedQueries d b) c (by omega)
    omega
  · unfold sessionEvents
    rw [if_pos rfl]
    exact List.getLast?_concat _

/-- C4 refuted as stated: a session at breadth 2, depth 1 whose
report-writing call fails emits percentages 50, 100 and then the terminal
Error record's 0 — not non-decreasing over the session's lifetime. -/
theorem sessionPercentages_error_drop :
    ¬ List.Chain' (· ≤ ·) (sessionPercentages 0 2 1 false) := by
  intro hch
  have h : sessionPercentages 0 2 1 false = [50, 100, 0] := by decide
  rw [h] at hch
  rcases hch with _ | ⟨_, hch⟩
  rcases hch with _ | ⟨h100, _⟩
  omega

/-! ## SSE subscriber registry (api.ts `GET /progress/:sessionId`,
`sendProgressUpdate`)

One session's view of the registry.  `latest` is `session.progress` as
`updateSessionProgress` maintains it; note that the handler's terminal
`sendProgressUpdate` (api.ts lines 445-456 and 465-477) does **not** go
through `updateSessionProgress`, so `latest` keeps the last running event.
Each connected client is a pair of its id and the transcript of events
written to it. -/

/-- Operations observable on one session's SSE state: a running progress
event (stored and broadcast), a terminal event (broadcast only), and a
subscriber connecting. -/
inductive SSEOp (Ev : Type) where
  | prog (e : Ev)
  | final (e : Ev)
  | conn (cid : Nat)

/-- One session's SSE registry state. -/
structure SSEState (Ev : Type) where
  latest : Option Ev
  clients : List (Nat × List Ev)

/-- The state before any event has fired or client connected. -/
def initSSE (Ev : Type) : SSEState Ev := ⟨none, []⟩

/-- Apply one operation, following the source: a running event updates the
stored snapshot and is written to every registered client
(`updateSessionProgress` + `sendProgressUpdate`); a terminal event is only
written to the registered clients; a connecting client is registered and
— api.ts lines 537-540 — receives the stored snapshot alone when one
exists. -/
def applySSE {Ev : Type} : SSEOp Ev → SSEState Ev → SSEState Ev
  | .prog e, s => ⟨some e, s.clients.map (fun p => (p.1, p.2 ++ [e]))⟩
  | .final e, s => ⟨s.latest, s.clients.map (fun p => (p.1, p.2 ++ [e]))⟩
  | .conn cid, s =>
    ⟨s.latest,
      (cid, match s.latest with | some e => [e] | none => []) :: s.clients⟩

/-- Run a list of operations from a state. -/
def runSSE {Ev : Type} (ops : List (SSEOp Ev)) (s : SSEState Ev) : SSEState Ev :=
  ops.foldl (fun st op => applySSE op st) s

/-- The transcript written to client `cid`, when it is registered. -/
def receivedBy {Ev : Type} (s : SSEState Ev) (cid : Nat) : Option (List Ev) :=
  (s.clients.find? (fun p => p.1 == cid)).map (·.2)

/-- The `n` most recent elements of a list — what a ring buffer of
capacity `n` would replay. -/
def lastEvents {α : Type} (n : Nat) (l : List α) : List α :=
  l.drop (l.length - n)

/-- C5 as stated: there is a replay-buffer capacity `B` of at least two
(`the N most recent events (not just the latest one)`) such that a
subscriber attaching after `N` progress events receives the
`min(N, B)` most recent ones replayed, then all live events, ending with
the one terminal event. -/
def ringReplayClaim : Prop :=
  ∃ B, 2 ≤ B ∧ ∀ (es fs : List Nat) (t : Nat) (cid : Nat),
    receivedBy
      (runSSE ((es.map .prog) ++ [.conn cid] ++ (fs.map .prog) ++ [.final t])
        (initSSE Nat))
      cid
    = some (lastEvents (min es.length B) es ++ fs ++ [t])

/-- C5 refuted as stated: after the two events 10 and 20, a fresh
subscriber's transcript starts with 20 alone — the stored latest snapshot —
never with the two most recent events, whatever buffer capacity the claim
is read with. -/
theorem sse_replay_refuted : ¬ ringReplayClaim := by
  rintro ⟨B, hB, h⟩
  have h2 := h [10, 20] [] 30 0
  have hlhs : receivedBy
      (runSSE (([10, 20].map .prog) ++ [.conn 0] ++ ([].map .prog) ++ [.final 30])
        (initSSE Nat)) 0
      = some [20, 30] := by rfl
  rw [hlhs] at h2
  have hmin : min ([10, 20] : List Nat).length B = 2 := by
    simp only [List.length_cons, List.length_nil]
    omega
  rw [hmin] at h2
  simp [lastEvents] at h2

/-- Running a stream of progress events over a client-free registry leaves
it client-free and stores the last event (or keeps the old snapshot when
the stream is empty). -/
theorem runSSE_progs_no_clients {Ev : Type} :
    ∀ (es : List Ev) (lat : Option Ev),
      runSSE (es.map .prog) ⟨lat, []⟩
        = ⟨match es.getLast? with | some e => some e | none => lat, []⟩ := by
  intro es
  induction es with
  | nil => intro lat; rfl
  | cons e es ih =>
    intro lat
    have step : runSSE ((e :: es).map .prog) ⟨lat, []⟩
        = runSSE (es.map .prog) ⟨some e, []⟩ := rfl
    rw [step, ih]
    cases es with
    | nil => rfl
    | cons e' es' => simp [List.getLast?]

/-- Running a stream of progress events over a single-client registry
appends the whole stream to that client's transcript. -/
theorem runSSE_progs_one_client {Ev : Type} :
    ∀ (fs : List Ev) (lat : Option Ev) (cid : Nat) (r : List Ev),
      runSSE (fs.map .prog) ⟨lat, [(cid, r)]⟩
        = ⟨match fs.getLast? with | some e => some e | none => lat,
            [(cid, r ++ fs)]⟩ := by
  intro fs
  induction fs with
  | nil => intro lat cid r; simp [runSSE]
  | cons e fs ih =>
    intro lat cid r
    have step : runSSE ((e :: fs).map .prog) ⟨lat, [(cid, r)]⟩
        = runSSE (fs.map .prog) ⟨some e, [(cid, r ++ [e])]⟩ := rfl
    rw [step, ih]
    cases fs with
    | nil => simp [List.getLast?]
    | cons f fs' => simp [List.getLast?]

/-- `runSSE` distributes over concatenation of operation lists. -/
theorem runSSE_append {Ev : Type} (a b : List (SSEOp Ev)) (s : SSEState Ev) :
    runSSE (a ++ b) s = runSSE b (runSSE a s) := by
  simp [runSSE, List.foldl_append]

/-- C5 (amended): a subscriber attaching after at least one progress event
has fired receives exactly one replayed event — the most recent running
event, the stored snapshot — followed by all subsequent live events, and
its transcript ends with the one terminal event of the session. -/
theorem sse_replay_latest {Ev : Type} (es fs : List Ev) (t : Ev) (cid : Nat)
    (l : Ev) (hlast : es.getLast? = some l) :
    receivedBy
      (runSSE ((es.map .prog) ++ [.conn cid] ++ (fs.map .prog) ++ [.final t])
        (initSSE Ev))
      cid
    = some (l :: (fs ++ [t])) := by
  have hA : runSSE (es.map SSEOp.prog) (initSSE Ev) = ⟨some l, []⟩ := by
    have h0 := runSSE_progs_no_clients es (none : Option Ev)
    rw [hlast] at h0
    exact h0
  rw [runSSE_append _ [SSEOp.final t], runSSE_append _ (fs.map SSEOp.prog),
    runSSE_append (es.map SSEOp.prog) [SSEOp.conn cid], hA,
    show runSSE [SSEOp.conn cid] (⟨some l, []⟩ : SSEState Ev)
      = ⟨some l, [(cid, [l])]⟩ from rfl,
    runSSE_progs_one_client fs (some l) cid [l]]
  simp [runSSE, applySSE, receivedBy]

/-- Witness for `sse_replay_latest` at a concrete trace: two events fire,
a client connects, one live event follows, then the terminal event. -/
theorem sse_replay_latest_witness :
    ([4, 5] : List Nat).getLast? = some 5 ∧
      receivedBy
        (runSSE ((([4, 5] : List Nat).map .prog) ++ [.conn 7]
            ++ (([6] : List Nat).map .prog) ++ [.final 9])
          (initSSE Nat))
        7
      = some (5 :: ([6] ++ [9])) :=
  ⟨rfl, sse_replay_latest [4, 5] [6] 9 7 5 rfl⟩

/-! ## Global search-call concurrency pool

Modelled from the spec: `deep-research.ts` is not in the source tree.  Per
§4.4 step 3 and §5, all external search-and-scrape calls of the whole
recursion tree contend for one shared bounded pool of size K, not one pool
per recursion level.  The model is an interleaving transition system: a
state is the multiset of in-flight calls (tagged with the recursion depth
that issued them, so calls from different levels share the same pool), a
call may start only while fewer than K are in flight, and any in-flight
call may finish. -/

/-- The in-flight external search calls, each tagged with the depth of the
branch that issued it. -/
structure PoolState where
  running : List Nat

/-- One scheduling step under pool size `K`: a branch at any depth starts a
search call only when fewer than `K` are in flight, or an in-flight call
finishes. -/
inductive PoolStep (K : Nat) : PoolState → PoolState → Prop where
  | start (s : PoolState) (d : Nat) (h : s.running.length < K) :
      PoolStep K s ⟨d :: s.running⟩
  | finish (d : Nat) (rest : List Nat) : PoolStep K ⟨d :: rest⟩ ⟨rest⟩

/-- States reachable from the idle pool. -/
def PoolReachable (K : Nat) (s : PoolState) : Prop :=
  Relation.ReflTransGen (PoolStep K) ⟨[]⟩ s

/-- C6: at no instant during a research session do more than `K` external
search-and-scrape calls execute concurrently across the entire recursion
tree: in every reachable pool state, the in-flight calls — whatever mix of
recursion depths issued them — number at most `K`. -/
theorem pool_search_concurrency_bound (K : Nat) (s : PoolState)
    (h : PoolReachable K s) : s.running.length ≤ K := by
  induction h with
  | refl => simp
  | tail hab hbc ih =>
    cases hbc with
    | start s' d hlt => simpa using hlt
    | finish d rest =>
      simp only [List.length_cons] at ih
      simp only []
      omega

/-- Witness for `pool_search_concurrency_bound`: with pool size 2, a state
holding one call from depth 1 and one from depth 3 is reachable and within
the bound. -/
theorem pool_search_concurrency_bound_witness :
    PoolReachable 2 ⟨[3, 1]⟩ ∧ (⟨[3, 1]⟩ : PoolState).running.length ≤ 2 :=
  have hr : PoolReachable 2 ⟨[3, 1]⟩ :=
    Relation.ReflTransGen.tail
      (Relation.ReflTransGen.tail Relation.ReflTransGen.refl
        (PoolStep.start ⟨[]⟩ 1 (by decide)))
      (PoolStep.start ⟨[1]⟩ 3 (by decide))
  ⟨hr, pool_search_concurrency_bound 2 ⟨[3, 1]⟩ hr⟩

/-! ## Session store (`SessionManager`, session-manager.ts)

The store is embedded as an association list from session id to session
data; wall-clock instants (`Date.now()`, `new Date()`) are explicit `now`
parameters in milliseconds. -/

/-- The `ResearchResult` record (fields as the handler and
`setSessionError` build them; `timestamp` as milliseconds). -/
structure ResearchResult where
  sessionId : Nat
  query : Text
  learnings : List Text
  visitedUrls : List Text
  report : Option Text
  timestamp : Nat
  duration : Nat
  success : Bool
  error : Option Text
deriving Repr, DecidableEq

/-- `SessionData` from session-manager.ts lines 4-15. -/
structure SessionData where
  sessionId : Nat
  query : Text
  breadth : Int
  depth : Int
  status : SessionStatus
  progress : Option ResearchProgressM
  result : Option ResearchResult
  createdAt : Nat
  updatedAt : Nat
  expiresAt : Nat
deriving Repr, DecidableEq

/-- `SESSION_EXPIRY_MS = 24 * 60 * 60 * 1000`: the fixed 24-hour
time-to-live. -/
def SESSION_EXPIRY_MS : Nat := 24 * 60 * 60 * 1000

/-- The session map. -/
abbrev Store := List (Nat × SessionData)

/-- `this.sessions.get(sessionId)`. -/
def lookupSession (store : Store) (sid : Nat) : Option SessionData :=
  (store.find? (fun p => p.1 == sid)).map (·.2)

/-- Point update of one session, leaving every other entry untouched — the
`if (session) { … }` mutation pattern of every update method. -/
def modifySession (store : Store) (sid : Nat) (f : SessionData → SessionData) :
    Store :=
  store.map (fun p => if p.1 == sid then (p.1, f p.2) else p)

/-- `this.sessions.delete(sessionId)`. -/
def eraseSession (store : Store) (sid : Nat) : Store :=
  store.filter (fun p => !(p.1 == sid))

/-- `createSession` (lines 27-47): a fresh pending entry expiring
`SESSION_EXPIRY_MS` after creation.  The source draws `sid` as a fresh
UUID; here it is a parameter. -/
def createSession (store : Store) (sid now : Nat) (query : Text)
    (breadth depth : Int) : Store :=
  (sid,
    { sessionId := sid
      query := query
      breadth := breadth
      depth := depth
      status := .pending
      progress := none
      result := none
      createdAt := now
      updatedAt := now
      expiresAt := now + SESSION_EXPIRY_MS }) :: store

/-- `getSession` (lines 49-60): a missing id reads as `null`; an entry past
its expiry is deleted and also reads as `null`. -/
def getSession (store : Store) (sid now : Nat) :
    Option SessionData × Store :=
  match lookupSession store sid with
  | none => (none, store)
  | some s =>
    if s.expiresAt < now then (none, eraseSession store sid) else (some s, store)

/-- `updateSessionStatus` (lines 62-68). -/
def updateSessionStatus (store : Store) (sid : Nat) (st : SessionStatus)
    (now : Nat) : Store :=
  modifySession store sid (fun s => { s with status := st, updatedAt := now })

/-- `updateSessionProgress` (lines 70-76). -/
def updateSessionProgress (store : Store) (sid : Nat) (pr : ResearchProgressM)
    (now : Nat) : Store :=
  modifySession store sid (fun s => { s with progress := some pr, updatedAt := now })

/-- `updateSessionResult` (lines 78-85): stores the result and forces the
status to `completed`. -/
def updateSessionResult (store : Store) (sid : Nat) (r : ResearchResult)
    (now : Nat) : Store :=
  modifySession store sid
    (fun s => { s with result := some r, status := .completed, updatedAt := now })

/-- The failure result `setSessionError` synthesises (lines 91-100). -/
def errorResult (sid : Nat) (query msg : Text) (now : Nat) : ResearchResult :=
  { sessionId := sid
    query := query
    learnings := []
    visitedUrls := []
    report := none
    timestamp := now
    duration := 0
    success := false
    error := some msg }

/-- `setSessionError` (lines 87-103): forces the status to `error` and
overwrites the result. -/
def setSessionError (store : Store) (sid : Nat) (msg : Text) (now : Nat) :
    Store :=
  modifySession store sid
    (fun s =>
      { s with
        status := .error
        result := some (errorResult sid s.query msg now)
        updatedAt := now })

/-- `cleanupExpiredSessions` (lines 115-133): the periodic sweep keeps
exactly the entries whose expiry has not passed. -/
def cleanupExpiredSessions (store : Store) (now : Nat) : Store :=
  store.filter (fun p => !(decide (p.2.expiresAt < now)))

/-- Looking up a freshly created session finds the new pending entry. -/
theorem lookupSession_create (store : Store) (sid now : Nat) (q : Text)
    (b d : Int) :
    lookupSession (createSession store sid now q b d) sid
      = some
        { sessionId := sid
          query := q
          breadth := b
          depth := d
          status := .pending
          progress := none
          result := none
          createdAt := now
          updatedAt := now
          expiresAt := now + SESSION_EXPIRY_MS } := by
  simp [lookupSession, createSession, List.find?]

/-- A point update reads back as the function applied to the old entry. -/
theorem lookupSession_modify (store : Store) (sid : Nat)
    (f : SessionData → SessionData) :
    lookupSession (modifySession store sid f) sid
      = (lookupSession store sid).map f := by
  induction store with
  | nil => rfl
  | cons p st ih =>
    by_cases hp : p.1 == sid
    · simp [lookupSession, modifySession, List.find?, hp]
    · rw [Bool.not_eq_true] at hp
      simp [lookupSession, modifySession, List.find?, hp] at ih ⊢
      exact ih

/-- A point update of an id that is not in the store is a no-op. -/
theorem modifySession_noop (store : Store) (sid : Nat)
    (f : SessionData → SessionData) (h : lookupSession store sid = none) :
    modifySession store sid f = store := by
  induction store with
  | nil => rfl
  | cons p st ih =>
    by_cases hp : p.1 == sid
    · exfalso
      simp only [lookupSession, List.find?] at h
      rw [hp] at h
      simp at h
    · rw [Bool.not_eq_true] at hp
      have h2 : lookupSession st sid = none := by
        simp only [lookupSession, List.find?] at h ⊢
        rw [hp] at h
        simpa using h
      have ht := ih h2
      simp only [modifySession, List.map_cons] at ht ⊢
      rw [if_neg (by simp [hp]), ht]

/-- The four update operations of the store, as data, so a property over
`any further store operation` can quantify over them. -/
inductive StoreOp where
  | updStatus (st : SessionStatus) (now : Nat)
  | updProgress (pr : ResearchProgressM) (now : Nat)
  | updResult (r : ResearchResult) (now : Nat)
  | setError (msg : Text) (now : Nat)

/-- Dispatch one update operation against a session id. -/
def applyStoreOp (sid : Nat) (op : StoreOp) (store : Store) : Store :=
  match op with
  | .updStatus st now => updateSessionStatus store sid st now
  | .updProgress pr now => updateSessionProgress store sid pr now
  | .updResult r now => updateSessionResult store sid r now
  | .setError msg now => setSessionError store sid msg now

/-- C7 as stated: once a session is terminal (`completed` or `error`), its
status and result never change under any further store operation. -/
def terminalImmutableClaim : Prop :=
  ∀ (store : Store) (sid : Nat) (s : SessionData),
    lookupSession store sid = some s →
    (s.status = .completed ∨ s.status = .error) →
    ∀ (op : StoreOp),
      (lookupSession (applyStoreOp sid op store) sid).map (·.status)
          = some s.status ∧
        (lookupSession (applyStoreOp sid op store) sid).map (·.result)
          = some s.result

/-- A successfully completed session with a stored result. -/
def sDone : SessionData :=
  { sessionId := 0
    query := ['q']
    breadth := 2
    depth := 1
    status := .completed
    progress := none
    result := some
      { sessionId := 0
        query := ['q']
        learnings := [['x']]
        visitedUrls := [['u']]
        report := some ['r']
        timestamp := 1
        duration := 2
        success := true
        error := none }
    createdAt := 0
    updatedAt := 1
    expiresAt := 86400000 }

/-- C7 refuted as stated: the store operations do not guard terminal
states — `setSessionError` on an already completed session overwrites both
its status and its stored result. -/
theorem session_terminal_not_guarded : ¬ terminalImmutableClaim := by
  intro h
  have hc := h [(0, sDone)] 0 sDone (by decide) (Or.inl (by decide))
    (StoreOp.setError ['x'] 5)
  have hst : (lookupSession (applyStoreOp 0 (StoreOp.setError ['x'] 5)
      [(0, sDone)]) 0).map (·.status) = some SessionStatus.error := by decide
  rw [hst] at hc
  have : SessionStatus.error = sDone.status := Option.some.inj hc.1
  exact absurd this (by decide)

/-- The status of a session id in a store. -/
def statusOf (store : Store) (sid : Nat) : Option SessionStatus :=
  (lookupSession store sid).map (·.status)

/-- C7 (amended): the operation sequence the `POST /research` handler
actually performs drives a session's status one-directionally —
`createSession` leaves it Pending, `updateSessionStatus` moves it to
Running, and then exactly one of `updateSessionResult` / `setSessionError`
moves it to the terminal Completed / Error, after which the handler issues
no further status-changing operation.  The store operations themselves do
not enforce terminality. -/
theorem research_flow_one_directional (store : Store) (sid : Nat)
    (now₀ now₁ now₂ : Nat) (q : Text) (b d : Int) (ok : Bool)
    (r : ResearchResult) (msg : Text) :
    statusOf (createSession store sid now₀ q b d) sid = some .pending ∧
      statusOf
        (updateSessionStatus (createSession store sid now₀ q b d) sid
          .running now₁) sid
        = some .running ∧
      statusOf
        (if ok then
          updateSessionResult
            (updateSessionStatus (createSession store sid now₀ q b d) sid
              .running now₁) sid r now₂
        else
          setSessionError
            (updateSessionStatus (createSession store sid now₀ q b d) sid
              .running now₁) sid msg now₂) sid
        = some (if ok then .completed else .error) := by
  refine ⟨?_, ?_, ?_⟩
  · simp [statusOf, lookupSession_create]
  · simp [statusOf, updateSessionStatus, lookupSession_modify, lookupSession_create]
  · cases ok <;>
      simp [statusOf, updateSessionStatus, updateSessionResult, setSessionError,
        lookupSession_modify, lookupSession_create]

/-- C8: an entry created more than its fixed 24-hour time-to-live ago reads
as `null`, indistinguishable from an id that never existed, and the
periodic sweep keeps no expired entry. -/
theorem expired_sessions_not_found (store : Store) (sid : Nat) (q : Text)
    (b d : Int) (now₀ now : Nat) (hexp : now₀ + SESSION_EXPIRY_MS < now) :
    (getSession (createSession store sid now₀ q b d) sid now).1 = none ∧
      (∀ (st : Store) (sid2 : Nat), lookupSession st sid2 = none →
        (getSession st sid2 now).1 = none) ∧
      (∀ (st : Store) (sid2 : Nat) (s2 : SessionData),
        lookupSession (cleanupExpiredSessions st now) sid2 = some s2 →
        now ≤ s2.expiresAt) := by
  refine ⟨?_, ?_, ?_⟩
  · simp only [getSession, lookupSession_create]
    rw [if_pos hexp]
  · intro st sid2 hmiss
    simp [getSession, hmiss]
  · intro st sid2 s2 hfound
    simp only [lookupSession, Option.map_eq_some'] at hfound
    rcases hfound with ⟨p, hp, hps⟩
    have hmem := List.mem_of_find?_eq_some hp
    have hkeep := (List.mem_filter.mp hmem).2
    rw [← hps]
    simpa using hkeep

/-- Witness for `expired_sessions_not_found`: a session created at time 0
read 24 hours and one millisecond later. -/
theorem expired_sessions_not_found_witness :
    0 + SESSION_EXPIRY_MS < 86400001 ∧
      ((getSession (createSession [] 0 0 ['q'] 2 1) 0 86400001).1 = none ∧
        (∀ (st : Store) (sid2 : Nat), lookupSession st sid2 = none →
          (getSession st sid2 86400001).1 = none) ∧
        (∀ (st : Store) (sid2 : Nat) (s2 : SessionData),
          lookupSession (cleanupExpiredSessions st 86400001) sid2 = some s2 →
          86400001 ≤ s2.expiresAt)) :=
  ⟨by decide, expired_sessions_not_found [] 0 ['q'] 2 1 0 86400001 (by decide)⟩

/-- C10: every update operation applied to a session id that is not in the
store returns normally (all four are total functions) and leaves the store
completely unchanged. -/
theorem missing_session_ops_noop (store : Store) (sid : Nat)
    (h : lookupSession store sid = none) (st : SessionStatus)
    (pr : ResearchProgressM) (r : ResearchResult) (msg : Text) (now : Nat) :
    updateSessionStatus store sid st now = store ∧
      updateSessionProgress store sid pr now = store ∧
      updateSessionResult store sid r now = store ∧
      setSessionError store sid msg now = store :=
  ⟨modifySession_noop store sid _ h, modifySession_noop store sid _ h,
    modifySession_noop store sid _ h, modifySession_noop store sid _ h⟩

/-- Witness for `missing_session_ops_noop`: updates against an absent id on
a one-entry store. -/
theorem missing_session_ops_noop_witness :
    lookupSession [(1, sDone)] 0 = none ∧
      (updateSessionStatus [(1, sDone)] 0 .running 7 = [(1, sDone)] ∧
        updateSessionProgress [(1, sDone)] 0
            (mkRunningProgress 0 1 1 2 2 none 2 1) 7 = [(1, sDone)] ∧
        updateSessionResult [(1, sDone)] 0 (errorResult 0 ['q'] ['m'] 7) 7
            = [(1, sDone)] ∧
        setSessionError [(1, sDone)] 0 ['m'] 7 = [(1, sDone)]) :=
  ⟨by decide,
    missing_session_ops_noop [(1, sDone)] 0 (by decide) .running
      (mkRunningProgress 0 1 1 2 2 none 2 1) (errorResult 0 ['q'] ['m'] 7)
      ['m'] 7⟩

/-! ## Request validation (`POST /research`, api.ts)

`validateBody(researchSchema)` runs before the handler: an invalid body is
answered with a 400 validation error and the handler — and with it
`sessionManager.createSession` — never runs.  `researchSchema` (api.ts
lines 58-67): `query` a string of 1 to 1000 characters, `breadth` an
integer in [2, 10] defaulting to 5, `depth` an integer in [1, 5] defaulting
to 3. -/

/-- A research request body: `breadth`/`depth` are absent or an integer. -/
structure ResearchRequest where
  query : Text
  breadth : Option Int
  depth : Option Int

/-- The `researchSchema` bounds checks. -/
def validResearch (r : ResearchRequest) : Bool :=
  decide (1 ≤ r.query.length) && decide (r.query.length ≤ 1000)
    && (match r.breadth with
        | some b => decide (2 ≤ b) && decide (b ≤ 10)
        | none => true)
    && (match r.depth with
        | some dd => decide (1 ≤ dd) && decide (dd ≤ 5)
        | none => true)

/-- The request pipeline: the validation middleware either rejects (the
store untouched, flag `false` standing for the synchronous 400 response)
or the handler creates the session with the defaulted bounds. -/
def handleResearch (store : Store) (r : ResearchRequest) (sid now : Nat) :
    Store × Bool :=
  if validResearch r then
    (createSession store sid now r.query (r.breadth.getD 5) (r.depth.getD 3),
      true)
  else (store, false)

/-- C9: a request whose breadth is outside [2,10], whose depth is outside
[1,5], or whose query is empty or longer than 1000 characters is rejected
synchronously before any session is created, leaving the session store
unchanged. -/
theorem invalid_research_rejected (store : Store) (r : ResearchRequest)
    (sid now : Nat)
    (h : r.query.length = 0 ∨ 1000 < r.query.length
      ∨ (∃ b, r.breadth = some b ∧ (b < 2 ∨ 10 < b))
      ∨ (∃ dd, r.depth = some dd ∧ (dd < 1 ∨ 5 < dd))) :
    handleResearch store r sid now = (store, false) := by
  have hv : validResearch r = false := by
    rcases h with h0 | h1000 | ⟨b, hb, hbad⟩ | ⟨dd, hd, hbad⟩
    · simp [validResearch, h0]
    · simp [validResearch]
      omega
    · simp [validResearch, hb]
      intro _ _
      omega
    · simp [validResearch, hd]
      intro _ _ _
      omega
  simp [handleResearch, hv]

/-- Witness for `invalid_research_rejected`: breadth 11 is out of bounds,
so the store stays empty and the request is rejected. -/
theorem invalid_research_rejected_witness :
    ((⟨['q'], some 11, none⟩ : ResearchRequest).query.length = 0
        ∨ 1000 < (⟨['q'], some 11, none⟩ : ResearchRequest).query.length
        ∨ (∃ b, (⟨['q'], some 11, none⟩ : ResearchRequest).breadth = some b
            ∧ (b < 2 ∨ 10 < b))
        ∨ (∃ dd, (⟨['q'], some 11, none⟩ : ResearchRequest).depth = some dd
            ∧ (dd < 1 ∨ 5 < dd))) ∧
      handleResearch [] ⟨['q'], some 11, none⟩ 0 0 = ([], false) :=
  ⟨Or.inr (Or.inr (Or.inl ⟨11, rfl, Or.inr (by decide)⟩)),
    invalid_research_rejected [] ⟨['q'], some 11, none⟩ 0 0
      (Or.inr (Or.inr (Or.inl ⟨11, rfl, Or.inr (by decide)⟩)))⟩

end DeepResearch
